import Mathlib

/-!
Verification development for the ari-py ARI client (src/ari/client.py).

The file gives a shallow embedding of the event-distribution core of the
client: the listener registry (Client.on_event, EventUnsubscriber.close),
the schema-driven object extraction (Client.on_object_event and its inner
extract_objects closure), and the message-drain loop (Client.__run and
Client.run).  Python values are embedded as follows:

  * decoded JSON frames become the inductive type Json; Python dict
    lookups on string keys become first-match association-list lookup
    (Python dicts have unique keys, so first-match lookup is exact);
  * the event-listener dict (self.event_listeners) becomes a total
    function String -> List Entry.  Python uses dict.setdefault plus
    dict.get with default [], so an absent key and a key mapped to []
    are observationally identical for every operation modelled here;
  * a listener entry is the tuple (event_cb, args, kwargs).  Callback
    identity is embedded in the Callback type: plain callbacks are
    opaque atoms (Python function equality is identity), and each
    wrapper closure created by on_object_event carries a fresh witness
    id (wid) since each execution of the inner def creates a distinct
    function object.  The extra args/kwargs are arbitrary opaque Python
    objects whose == defaults to identity, so they are embedded as
    atoms (Nat);
  * callback behaviour during dispatch is an oracle: a mutation function
    (a listener may re-enter the client and mutate the registry) and a
    raises predicate (a listener may throw).  The part of a wrapper
    callback's behaviour that is fixed by the source code - it computes
    extract_objects over its baked-in field list and calls the target
    callback - is recorded structurally in the dispatch trace;
  * json.loads is embedded as the decode outcome of a frame: a Frame is
    either undecodable (json.loads raises JSONDecodeError) or a decoded
    Json value.
-/

namespace AriPy

/-- Decoded JSON values (the result of json.loads on one frame). -/
inductive Json where
  | null : Json
  | bool (b : Bool) : Json
  | num (n : Int) : Json
  | str (s : String) : Json
  | arr (elems : List Json) : Json
  | obj (fields : List (String × Json)) : Json

/-- Python truthiness of a decoded JSON value, as used by
the test `if event.get(obj_field)` in extract_objects:
None, False, 0, empty string, empty list and empty dict are falsy. -/
def truthy : Json → Bool
  | Json.null => false
  | Json.bool b => b
  | Json.num n => decide (n ≠ 0)
  | Json.str s => decide (s ≠ (r""))
  | Json.arr elems => !elems.isEmpty
  | Json.obj fields => !fields.isEmpty

/-- First-match association-list lookup: the embedding of indexing a
Python dict (unique keys) by a string key, returning None when absent. -/
def alookup {β : Type} : List (String × β) → String → Option β
  | [], _ => none
  | p :: rest, k => if p.1 = k then some p.2 else alookup rest k

/-- Identity of a registered callback.  A plain callback is an opaque
application function (atom id); a wrapper is one of the extract_objects
closures created by on_object_event, carrying its own object identity
wid, the identity of the wrapped event_cb and the baked-in list of
schema field names of the requested model type.  Python == on functions
is object identity, which the derived decidable equality mirrors. -/
inductive Callback where
  | plain (id : Nat) : Callback
  | wrapper (wid : Nat) (target : Nat) (obj_fields : List String) : Callback
  deriving DecidableEq

/-- A listener entry: the tuple callback_obj = (event_cb, args, kwargs)
built by Client.on_event.  (The loop body does `args = args or ()` and
`kwargs = kwargs or {}`; since args always originates from *args it is
a tuple and `args or ()` is the identity on tuples, likewise kwargs, so
the tuple components are stored as given.)  Extra positional and keyword
arguments are arbitrary opaque Python objects, embedded as atoms. -/
structure Entry where
  cb : Callback
  args : List Nat
  kwargs : List (String × Nat)
  deriving DecidableEq

/-- The listener registry self.event_listeners: event-type name to the
ordered list of listener entries.  Python's dict.setdefault plus
dict.get-with-default-[] make an absent key indistinguishable from a key
holding [], so the registry is embedded as a total function. -/
abbrev Registry := String → List Entry

/-- Point update of the registry (mutation of one dict value). -/
def updateReg (st : Registry) (t : String) (l : List Entry) : Registry :=
  fun s => if s = t then l else st s

/-- Python list.remove(x): delete the first element that compares equal
to x.  (The source only calls it with an element known to be present.) -/
def pyRemove {α : Type} [DecidableEq α] : List α → α → List α
  | [], _ => []
  | y :: ys, x => if y = x then ys else y :: pyRemove ys x

/-- One pass of the loop `for cb in listeners: if event_cb == cb[0]:
listeners.remove(cb)` in Client.on_event, with Python's concrete
iterator semantics: the iterator holds an index i into the live list,
yields listeners[i] and advances i; list.remove inside the body shifts
later elements down.  fuel bounds the number of iterations; the loop
runs at most (initial length) iterations because i increases by one per
iteration and the length never grows, so removeLoop supplies exactly
that fuel and the embedding is exact. -/
def removeLoopAux (c : Callback) : Nat → List Entry → Nat → List Entry
  | 0, l, _ => l
  | fuel + 1, l, i =>
    if h : i < l.length then
      if l[i].cb = c then removeLoopAux c fuel (pyRemove l l[i]) (i + 1)
      else removeLoopAux c fuel l (i + 1)
    else l

/-- The whole removal loop of Client.on_event. -/
def removeLoop (l : List Entry) (c : Callback) : List Entry :=
  removeLoopAux c l.length l 0

/-- Client.on_event: fetch (setdefault) the type's listener list, remove
entries whose callback compares equal to the new one, append the fresh
callback_obj tuple, and return it (the EventUnsubscriber closes over
exactly this tuple and the event type). -/
def on_event (st : Registry) (t : String) (cb : Callback)
    (args : List Nat) (kwargs : List (String × Nat)) : Registry × Entry :=
  let listeners := st t
  let listeners2 := removeLoop listeners cb
  let callback_obj : Entry := ⟨cb, args, kwargs⟩
  (updateReg st t (listeners2 ++ [callback_obj]), callback_obj)

/-- EventUnsubscriber.close: if the captured callback_obj is still in
the type's list, remove (the first entry equal to) it; otherwise no-op. -/
def unsubscribe (st : Registry) (t : String) (callback_obj : Entry) : Registry :=
  if callback_obj ∈ st t then updateReg st t (pyRemove (st t) callback_obj)
  else st

/-- Result of the extract_objects computation that is handed to the
wrapped event_cb: a single bare object, None, or the field-name-to-object
dict (in schema-field order, as built by the dict comprehension). -/
inductive ExtractResult (α : Type) where
  | one (a : α) : ExtractResult α
  | nothing : ExtractResult α
  | many (m : List (String × α)) : ExtractResult α

/-- The obj_fields computation of Client.on_object_event:
[k for (k, v) in event_model['properties'].items() if v['type'] == model_id].
A schema is the properties mapping field-name -> declared type name. -/
def eligibleFields (props : List (String × String)) (mid : String) : List String :=
  (props.filter (fun p => decide (p.2 = mid))).map Prod.fst

/-- The guard `if event.get(obj_field)` of the dict comprehension in
extract_objects: the field's value when present and truthy, else none. -/
def populatedLookup (event : List (String × Json)) (f : String) : Option Json :=
  match alookup event f with
  | some v => if truthy v then some v else none
  | none => none

/-- The body of the inner extract_objects closure of on_object_event
(excluding the final call of event_cb, which the dispatch trace records):
build the dict {f: factory_fn(self, event[f]) for f in obj_fields if
event.get(f)}; if the schema had exactly one eligible field, collapse to
the single value or None. -/
def extract_objects {α : Type} (factory : Json → α) (obj_fields : List String)
    (event : List (String × Json)) : ExtractResult α :=
  let obj : List (String × α) := obj_fields.filterMap (fun f =>
    match populatedLookup event f with
    | some v => some (f, factory v)
    | none => none)
  if obj_fields.length = 1 then
    match obj with
    | [] => ExtractResult.nothing
    | x :: _ => ExtractResult.one x.2
  else ExtractResult.many obj

/-- The client state relevant to registration: the listener registry and
the allocator for fresh closure identities (each execution of the inner
`def extract_objects` in on_object_event creates a new function object,
never equal (by identity) to any existing one). -/
structure ClientState where
  listeners : Registry
  nextWid : Nat

/-- Client.on_event lifted to the client state (it touches only the
listener registry). -/
def ClientState.on_event (cs : ClientState) (t : String) (cb : Callback)
    (args : List Nat) (kwargs : List (String × Nat)) : ClientState × Entry :=
  let r := AriPy.on_event cs.listeners t cb args kwargs
  (ClientState.mk r.1 cs.nextWid, r.2)

/-- The message of the ValueError "Cannot find event model ..." -/
def noModelMsg (t : String) : String :=
  (r"Cannot find event model ") ++ t

/-- The message of the ValueError "Event model ... has no fields of type ..." -/
def noFieldsMsg (t mid : String) : String :=
  (r"Event model ") ++ t ++ (r" has no fields of type ") ++ mid

/-- The event-model catalog self.event_models: event-type name to the
model's properties (field name -> declared type name).  A swagger model
dict always carries at least its id and properties keys, so the Python
truthiness test `if not event_model:` fails exactly when .get returned
None, i.e. when the event type is absent from the catalog. -/
abbrev Models := List (String × List (String × String))

/-- Client.on_object_event: look up the event model (raise ValueError
when absent), compute the schema fields of the requested model type
(raise ValueError when empty), then create the fresh extract_objects
wrapper closure and register it via on_event.  Errors abort before any
registration, leaving the client state untouched. -/
def on_object_event (models : Models) (cs : ClientState) (t : String)
    (target : Nat) (mid : String) (args : List Nat)
    (kwargs : List (String × Nat)) : ClientState × Except String Entry :=
  match alookup models t with
  | none => (cs, Except.error (noModelMsg t))
  | some props =>
    let obj_fields := eligibleFields props mid
    if obj_fields = [] then (cs, Except.error (noFieldsMsg t mid))
    else
      let cb := Callback.wrapper cs.nextWid target obj_fields
      let r := ClientState.on_event (ClientState.mk cs.listeners (cs.nextWid + 1))
        t cb args kwargs
      (r.1, Except.ok r.2)

/-- Observable actions of the drain loop, in order:
  * invoked l event: the loop called listener tuple l with the event;
  * calledTarget tgt obj event: inside a wrapper callback,
    extract_objects produced obj and event_cb (identity tgt) was called
    with (obj, event, ...);
  * handled: the per-listener except clause ran self.exception_handler;
  * logInvalid: log.error("Invalid event: ...") for a discarded frame;
  * wsClose w: ws.close() in the finally clause of Client.run. -/
inductive Step where
  | invoked (l : Entry) (event : List (String × Json)) : Step
  | calledTarget (target : Nat) (obj : ExtractResult Json) (event : List (String × Json)) : Step
  | handled : Step
  | logInvalid : Step
  | wsClose (w : Nat) : Step

/-- Oracle for registry mutations a listener callback may perform while
it runs (e.g. registering or unregistering listeners from inside the
callback). -/
abbrev MutOracle := Callback → List (String × Json) → Registry → Registry

/-- Oracle deciding whether a listener invocation raises an exception. -/
abbrev RaisesOracle := Callback → List (String × Json) → Bool

/-- The trace fragment fixed by the source for one invocation: a wrapper
callback that completes normally computes extract_objects over its
baked-in field list and calls its event_cb with the result and event. -/
def wrapperSteps (raises : RaisesOracle) (factory : Json → Json)
    (cb : Callback) (event : List (String × Json)) : List Step :=
  match cb with
  | Callback.plain _ => []
  | Callback.wrapper _ tgt obj_fields =>
    if raises cb event then []
    else [Step.calledTarget tgt (extract_objects factory obj_fields event) event]

/-- The inner loop of Client.__run over the snapshot list: invoke each
listener tuple in order with the event; a raising invocation is caught
and routed to self.exception_handler, after which the loop proceeds with
the next snapshot element.  The registry is threaded through because a
callback may mutate it; the iteration itself is over the snapshot. -/
def dispatchSnapshot (mo : MutOracle) (raises : RaisesOracle)
    (factory : Json → Json) :
    List Entry → List (String × Json) → Registry → Registry × List Step
  | [], _, st => (st, [])
  | l :: rest, event, st =>
    let st1 := mo l.cb event st
    let steps1 := Step.invoked l event ::
      (wrapperSteps raises factory l.cb event ++
        (if raises l.cb event then [Step.handled] else []))
    let p := dispatchSnapshot mo raises factory rest event st1
    (p.1, steps1 ++ p.2)

/-- The required discriminator key 'type' of a well-formed event. -/
def tyKey : String := (r"type")

/-- The body of one iteration of Client.__run for a successfully decoded
frame: discard (with log.error) anything that is not a dict or lacks the
'type' key; otherwise evaluate the listener lookup
self.event_listeners.get(msg_json['type'], []) and dispatch over the
list(...) snapshot of its result.  The key msg_json['type'] may be any
decoded JSON value: a string finds that type's listeners; a hashable
non-string value (null, boolean or number decode to hashable Python
values) finds nothing in the string-keyed dict; but an unhashable
value - a JSON array or object decodes to a Python list or dict - makes
dict.get raise an uncaught TypeError (unhashable key), modelled as
none, which terminates the drain loop. -/
def processFrame (mo : MutOracle) (raises : RaisesOracle)
    (factory : Json → Json) (st : Registry) (j : Json) :
    Option (Registry × List Step) :=
  match j with
  | Json.obj msg =>
    match alookup msg tyKey with
    | none => some (st, [Step.logInvalid])
    | some (Json.str s) => some (dispatchSnapshot mo raises factory (st s) msg st)
    | some (Json.arr _) => none
    | some (Json.obj _) => none
    | some _ => some (dispatchSnapshot mo raises factory [] msg st)
  | _ => some (st, [Step.logInvalid])

/-- The decode outcome of one inbound frame string: json.loads either
raises (undecodable text) or returns a Json value.  The stream of frames
ends when ws.recv() returns the None sentinel. -/
inductive Frame where
  | undecodable : Frame
  | decoded (j : Json) : Frame
  deriving Inhabited

/-- Outcome of Client.__run: either the recv loop drained the stream to
its end, or an exception (the uncaught JSONDecodeError from json.loads)
escaped after the recorded steps. -/
inductive DrainResult where
  | finished (st : Registry) (steps : List Step) : DrainResult
  | raised (st : Registry) (steps : List Step) : DrainResult

def DrainResult.registry : DrainResult → Registry
  | DrainResult.finished st _ => st
  | DrainResult.raised st _ => st

def DrainResult.steps : DrainResult → List Step
  | DrainResult.finished _ steps => steps
  | DrainResult.raised _ steps => steps

def DrainResult.didRaise : DrainResult → Bool
  | DrainResult.finished _ _ => false
  | DrainResult.raised _ _ => true

/-- Prefix some already-performed steps onto a drain outcome. -/
def prependSteps (pre : List Step) : DrainResult → DrainResult
  | DrainResult.finished st steps => DrainResult.finished st (pre ++ steps)
  | DrainResult.raised st steps => DrainResult.raised st (pre ++ steps)

/-- Client.__run: drain the frames of one websocket.  json.loads of an
undecodable frame raises inside the for body with no enclosing handler,
so the loop terminates and the exception propagates; likewise the
TypeError raised by the listener lookup on a frame whose 'type' value is
unhashable (both raises happen before any step of that iteration is
recorded and before any registry mutation).  Any other decoded frame is
processed by the iteration body and the loop continues. -/
def drain (mo : MutOracle) (raises : RaisesOracle) (factory : Json → Json)
    (st : Registry) : List Frame → DrainResult
  | [] => DrainResult.finished st []
  | Frame.undecodable :: _ => DrainResult.raised st []
  | Frame.decoded j :: rest =>
    match processFrame mo raises factory st j with
    | none => DrainResult.raised st []
    | some p => prependSteps p.2 (drain mo raises factory p.1 rest)

/-- The frames at which the drain loop raises an uncaught exception:
undecodable text (JSONDecodeError from json.loads) and decoded object
frames carrying a 'type' key whose value is a JSON array or object
(TypeError from the unhashable key in the listener lookup). -/
def frameRaises : Frame → Bool
  | Frame.undecodable => true
  | Frame.decoded j =>
    match j with
    | Json.obj msg =>
      match alookup msg tyKey with
      | some (Json.arr _) => true
      | some (Json.obj _) => true
      | _ => false
    | _ => false

/-- Python set.add: no-op when already present. -/
def setAdd (s : List Nat) (w : Nat) : List Nat :=
  if w ∈ s then s else s ++ [w]

/-- Python set.remove on a set representation without duplicates. -/
def setRemove (s : List Nat) (w : Nat) : List Nat :=
  pyRemove s w

/-- Outcome of Client.run: final registry, final active-websocket set,
the recorded steps, and whether run re-raised (propagated the exception
that escaped the drain loop). -/
structure RunOutcome where
  registry : Registry
  websockets : List Nat
  steps : List Step
  raised : Bool

/-- Client.run: open the websocket (handle w), add it to
self.websockets, drain it, and in the finally clause - on the normal
path and on the exception path alike - close the handle and remove it
from the set before returning or re-raising. -/
def clientRun (mo : MutOracle) (raises : RaisesOracle) (factory : Json → Json)
    (st : Registry) (wss : List Nat) (w : Nat) (frames : List Frame) : RunOutcome :=
  let wss1 := setAdd wss w
  match drain mo raises factory st frames with
  | DrainResult.finished st2 steps =>
    RunOutcome.mk st2 (setRemove wss1 w) (steps ++ [Step.wsClose w]) false
  | DrainResult.raised st2 steps =>
    RunOutcome.mk st2 (setRemove wss1 w) (steps ++ [Step.wsClose w]) true

/-- The listener invocations recorded in a step trace, in order. -/
def invokedOf : List Step → List (Entry × List (String × Json))
  | [] => []
  | Step.invoked l event :: rest => (l, event) :: invokedOf rest
  | _ :: rest => invokedOf rest

/-- Number of exception-handler invocations recorded in a step trace. -/
def handledCount : List Step → Nat
  | [] => 0
  | Step.handled :: rest => 1 + handledCount rest
  | _ :: rest => handledCount rest

/-- Number of calls of the event_cb with identity tgt recorded in a
step trace (each completed wrapper invocation calls its event_cb once). -/
def countTargetCalls (tgt : Nat) : List Step → Nat
  | [] => 0
  | Step.calledTarget t _ _ :: rest =>
    (if t = tgt then 1 else 0) + countTargetCalls tgt rest
  | _ :: rest => countTargetCalls tgt rest

/-- Occurrences of a given entry value in a listener list. -/
def countE (co : Entry) (l : List Entry) : Nat :=
  l.countP (fun e => decide (e = co))

/-- Occurrences of a given callback identity in a listener list. -/
def countCb (c : Callback) (l : List Entry) : Nat :=
  l.countP (fun e => decide (e.cb = c))

/-- The discard condition of the loop body of Client.__run for a frame
that json.loads decoded successfully: not a dict, or no 'type' key. -/
def malformedRecord : Json → Bool
  | Json.obj kvs => (alookup kvs tyKey).isNone
  | _ => true

/-- A callback behaviour oracle that performs no registry mutation. -/
def moId : MutOracle := fun _ _ st => st

/-- A raises oracle under which no listener ever throws. -/
def raisesNever : RaisesOracle := fun _ _ => false

/-- A raises oracle under which exactly the plain callback 0 throws. -/
def raisesPlain0 : RaisesOracle := fun cb _ =>
  match cb with
  | Callback.plain 0 => true
  | _ => false

/-- The identity stand-in for factory_fn. -/
def factoryId : Json → Json := fun v => v

/-- The registry of a freshly constructed client (no listeners). -/
def emptyReg : Registry := fun _ => []

/-- Sample event-type name T. -/
def sT : String := (r"T")

/-- Sample event-type name X. -/
def sX : String := (r"X")

/-- Sample model-type name Channel. -/
def sChannel : String := (r"Channel")

/-- Sample model-type name string (a non-object field type). -/
def sString : String := (r"string")

/-- Sample model-type name Playback (absent from the sample schemas). -/
def sPlayback : String := (r"Playback")

/-- Sample schema field name channel. -/
def fChannel : String := (r"channel")

/-- Sample schema field name other. -/
def fOther : String := (r"other")

/-- Sample schema field name peer. -/
def fPeer : String := (r"peer")

/-- Sample listener entry with plain callback 0 and no extra arguments. -/
def entryP0 : Entry := ⟨Callback.plain 0, [], []⟩

/-- Sample listener entry with plain callback 1 and no extra arguments. -/
def entryP1 : Entry := ⟨Callback.plain 1, [], []⟩

/-- Sample well-formed event record of type T. -/
def evT : List (String × Json) := [(tyKey, Json.str sT)]

/-- Sample registry holding the two plain listeners for type T. -/
def stT : Registry := updateReg emptyReg sT [entryP0, entryP1]

/-- Sample registry holding the plain listener 0 for type X. -/
def stX0 : Registry := updateReg emptyReg sX [entryP0]

/-- A mutation oracle whose callbacks unregister every listener (the
harshest possible concurrent mutation during dispatch). -/
def moKill : MutOracle := fun _ _ _ => emptyReg

/-- A constant factory for extraction examples. -/
def factory42 : Json → Nat := fun _ => 42

/-- A fresh client state (empty registry, first closure id 0). -/
def cs0 : ClientState := ClientState.mk emptyReg 0

/-- Sample catalog: event type T has one Channel field and one string
field; event type X has two Channel fields. -/
def modelsTX : Models :=
  [(sT, [(fChannel, sChannel), (fOther, sString)]),
   (sX, [(fChannel, sChannel), (fPeer, sChannel)])]

/-- The registry invariant every reachable client state satisfies: at
most one entry per callback identity in any type's list.  A fresh
registry satisfies it, and both mutating operations (on_event and the
handle's close) preserve it - proved below - so hypotheses of the form
countCb c (st t) = 0 or = 1 cover exactly the reachable registries. -/
def AtMostOnePerCb (st : Registry) : Prop :=
  ∀ (t : String) (c : Callback), countCb c (st t) ≤ 1

/-! Helper lemmas about the embedded list and registry operations. -/

theorem updateReg_same (st : Registry) (t : String) (l : List Entry) :
    updateReg st t l t = l := by
  simp [updateReg]

theorem updateReg_ne (st : Registry) {t s : String} (l : List Entry) (h : s ≠ t) :
    updateReg st t l s = st s := by
  simp [updateReg, h]

theorem pyRemove_cons_self {α : Type} [DecidableEq α] (x : α) (l : List α) :
    pyRemove (x :: l) x = l := by
  simp [pyRemove]

theorem pyRemove_cons_ne {α : Type} [DecidableEq α] {y x : α} (l : List α)
    (h : y ≠ x) : pyRemove (y :: l) x = y :: pyRemove l x := by
  simp [pyRemove, h]

theorem pyRemove_of_not_mem {α : Type} [DecidableEq α] {x : α} :
    ∀ {l : List α}, x ∉ l → pyRemove l x = l
  | [], _ => rfl
  | y :: ys, h => by
    have hy : y ≠ x := fun hyx => h (hyx ▸ List.mem_cons_self y ys)
    have hys : x ∉ ys := fun hm => h (List.mem_cons_of_mem y hm)
    rw [pyRemove_cons_ne ys hy, pyRemove_of_not_mem hys]

theorem pyRemove_append_of_ne {α : Type} [DecidableEq α] {x : α} :
    ∀ {l₁ : List α} (l₂ : List α), (∀ y ∈ l₁, y ≠ x) →
      pyRemove (l₁ ++ x :: l₂) x = l₁ ++ l₂
  | [], l₂, _ => by simp [pyRemove_cons_self]
  | y :: ys, l₂, h => by
    have hy : y ≠ x := h y (List.mem_cons_self y ys)
    have hys : ∀ z ∈ ys, z ≠ x := fun z hz => h z (List.mem_cons_of_mem y hz)
    simp only [List.cons_append, pyRemove_cons_ne _ hy,
      pyRemove_append_of_ne l₂ hys]

theorem pyRemove_length_le {α : Type} [DecidableEq α] :
    ∀ (l : List α) (x : α), (pyRemove l x).length ≤ l.length
  | [], _ => Nat.le_refl _
  | y :: ys, x => by
    by_cases h : y = x
    · simp [pyRemove, h, Nat.le_succ]
    · simpa [pyRemove, h, Nat.succ_le_succ_iff] using pyRemove_length_le ys x

theorem count_pyRemove_self {α : Type} [DecidableEq α] {x : α} :
    ∀ {l : List α}, x ∈ l →
      (pyRemove l x).countP (fun e => decide (e = x)) + 1 =
        l.countP (fun e => decide (e = x))
  | y :: ys, h => by
    by_cases hy : y = x
    · subst hy
      simp [pyRemove_cons_self, List.countP_cons]
    · have hm : x ∈ ys := by
        rcases List.mem_cons.mp h with h1 | h1
        · exact absurd h1.symm hy
        · exact h1
      rw [pyRemove_cons_ne ys hy]
      simp only [List.countP_cons, decide_eq_true_eq, hy, if_false]
      have := count_pyRemove_self (l := ys) hm
      omega

theorem count_pyRemove_other {α : Type} [DecidableEq α] {x e : α} (hne : e ≠ x) :
    ∀ (l : List α),
      (pyRemove l x).countP (fun a => decide (a = e)) =
        l.countP (fun a => decide (a = e))
  | [] => rfl
  | y :: ys => by
    by_cases hy : y = x
    · subst hy
      have : ¬ (y = e) := fun h => hne (h ▸ rfl)
      simp [pyRemove_cons_self, List.countP_cons, this]
    · rw [pyRemove_cons_ne ys hy]
      simp only [List.countP_cons, count_pyRemove_other hne ys]

theorem not_mem_pyRemove_of_nodup {α : Type} [DecidableEq α] {x : α} :
    ∀ {l : List α}, l.Nodup → x ∉ pyRemove l x
  | [], _ => by simp [pyRemove]
  | y :: ys, h => by
    rcases List.nodup_cons.mp h with ⟨hy, hys⟩
    by_cases hyx : y = x
    · subst hyx
      simpa [pyRemove_cons_self] using hy
    · rw [pyRemove_cons_ne ys hyx]
      intro hm
      rcases List.mem_cons.mp hm with h1 | h1
      · exact hyx h1.symm
      · exact not_mem_pyRemove_of_nodup hys h1

theorem removeLoopAux_stop {c : Callback} {l : List Entry} {i : Nat}
    (h : l.length ≤ i) : ∀ fuel, removeLoopAux c fuel l i = l := by
  intro fuel
  cases fuel with
  | zero => rfl
  | succ fuel => rw [removeLoopAux, dif_neg (by omega)]

theorem removeLoopAux_shift {c : Callback} {a : Entry} (ha : a.cb ≠ c) :
    ∀ (fuel : Nat) (l : List Entry) (i : Nat),
      removeLoopAux c fuel (a :: l) (i + 1) = a :: removeLoopAux c fuel l i := by
  intro fuel
  induction fuel with
  | zero => intro l i; rfl
  | succ fuel ih =>
    intro l i
    by_cases hi : i < l.length
    · have hi' : i + 1 < (a :: l).length := by simp; omega
      rw [removeLoopAux, dif_pos hi', removeLoopAux, dif_pos hi]
      have hget : (a :: l)[i + 1] = l[i] := List.getElem_cons_succ ..
      rw [hget]
      by_cases hm : l[i].cb = c
      · have hax : a ≠ l[i] := fun hax => ha (hax ▸ hm)
        rw [if_pos hm, if_pos hm, pyRemove_cons_ne l hax, ih]
      · rw [if_neg hm, if_neg hm, ih]
    · have h1 : l.length ≤ i := by omega
      have h2 : (a :: l).length ≤ i + 1 := by simp; omega
      rw [removeLoopAux_stop h2, removeLoopAux_stop h1]

theorem removeLoopAux_no_match {c : Callback} :
    ∀ (fuel : Nat) (l : List Entry) (i : Nat),
      (∀ e ∈ l.drop i, e.cb ≠ c) → removeLoopAux c fuel l i = l := by
  intro fuel
  induction fuel with
  | zero => intro l i _; rfl
  | succ fuel ih =>
    intro l i h
    by_cases hi : i < l.length
    · have hdrop : l.drop i = l[i] :: l.drop (i + 1) := List.drop_eq_getElem_cons hi
      have hmem : l[i] ∈ l.drop i := by rw [hdrop]; exact List.mem_cons_self ..
      have hne : l[i].cb ≠ c := h _ hmem
      rw [removeLoopAux, dif_pos hi, if_neg hne]
      exact ih l (i + 1) (fun e he => h e (by rw [hdrop]; exact List.mem_cons_of_mem _ he))
    · exact removeLoopAux_stop (by omega) _

theorem removeLoop_nil (c : Callback) : removeLoop [] c = [] := rfl

theorem removeLoop_no_match {c : Callback} {l : List Entry}
    (h : ∀ e ∈ l, e.cb ≠ c) : removeLoop l c = l :=
  removeLoopAux_no_match l.length l 0 (by simpa using h)

theorem removeLoop_cons_ne {c : Callback} {a : Entry} (ha : a.cb ≠ c)
    (l : List Entry) : removeLoop (a :: l) c = a :: removeLoop l c := by
  show removeLoopAux c (l.length + 1) (a :: l) 0 = a :: removeLoopAux c l.length l 0
  have h0 : 0 < (a :: l).length := by simp
  rw [removeLoopAux, dif_pos h0]
  have hget : (a :: l)[0] = a := List.getElem_cons_zero ..
  rw [hget, if_neg ha]
  exact removeLoopAux_shift ha l.length l 0

theorem removeLoop_cons_match {c : Callback} {m : Entry} (hm : m.cb = c)
    {l : List Entry} (h : ∀ e ∈ l, e.cb ≠ c) : removeLoop (m :: l) c = l := by
  show removeLoopAux c (l.length + 1) (m :: l) 0 = l
  have h0 : 0 < (m :: l).length := by simp
  rw [removeLoopAux, dif_pos h0]
  have hget : (m :: l)[0] = m := List.getElem_cons_zero ..
  rw [hget, if_pos hm, pyRemove_cons_self]
  exact removeLoopAux_no_match l.length l 1
    (fun e he => h e (List.drop_subset 1 l he))

theorem removeLoop_decomp {c : Callback} (m : Entry) :
    ∀ (l₁ l₂ : List Entry), m.cb = c →
      (∀ e ∈ l₁, e.cb ≠ c) → (∀ e ∈ l₂, e.cb ≠ c) →
      removeLoop (l₁ ++ m :: l₂) c = l₁ ++ l₂ := by
  intro l₁
  induction l₁ with
  | nil =>
    intro l₂ hm _ h₂
    simpa using removeLoop_cons_match hm h₂
  | cons a l₁ ih =>
    intro l₂ hm h₁ h₂
    have ha : a.cb ≠ c := h₁ a (List.mem_cons_self ..)
    have h₁' : ∀ e ∈ l₁, e.cb ≠ c := fun e he => h₁ e (List.mem_cons_of_mem a he)
    simp only [List.cons_append, removeLoop_cons_ne ha, ih l₂ hm h₁' h₂]

theorem countP_one_decomp {α : Type} {p : α → Bool} :
    ∀ {l : List α}, l.countP p = 1 →
      ∃ l₁ a l₂, l = l₁ ++ a :: l₂ ∧ p a = true ∧
        (∀ e ∈ l₁, ¬ p e = true) ∧ (∀ e ∈ l₂, ¬ p e = true)
  | [], h => by simp [List.countP_nil] at h
  | b :: l, h => by
    rw [List.countP_cons] at h
    by_cases hb : p b = true
    · refine ⟨[], b, l, by simp, hb, by simp, ?_⟩
      simp only [hb, if_true] at h
      have hl : l.countP p = 0 := by omega
      exact fun e he => by
        have := List.countP_eq_zero.mp hl e he
        simpa using this
    · simp only [hb, if_false] at h
      rcases countP_one_decomp h with ⟨l₁, a, l₂, heq, hpa, h₁, h₂⟩
      exact ⟨b :: l₁, a, l₂, by rw [heq]; rfl, hpa,
        fun e he => by
          rcases List.mem_cons.mp he with h1 | h1
          · exact h1 ▸ hb
          · exact h₁ e h1, h₂⟩

theorem removeLoop_eq_filter {c : Callback} {l : List Entry}
    (h : countCb c l ≤ 1) :
    removeLoop l c = l.filter (fun e => ! decide (e.cb = c)) := by
  unfold countCb at h
  rcases Nat.lt_or_ge (l.countP (fun e => decide (e.cb = c))) 1 with h0 | h1
  · have h0' : l.countP (fun e => decide (e.cb = c)) = 0 := by omega
    have hnm : ∀ e ∈ l, e.cb ≠ c := fun e he => by
      have := List.countP_eq_zero.mp h0' e he
      simpa using this
    rw [removeLoop_no_match hnm, List.filter_eq_self.mpr]
    intro a ha
    simpa using hnm a ha
  · have heq : l.countP (fun e => decide (e.cb = c)) = 1 := by omega
    rcases countP_one_decomp heq with ⟨l₁, m, l₂, hl, hpm, h₁, h₂⟩
    have hm : m.cb = c := by simpa using hpm
    have h₁' : ∀ e ∈ l₁, e.cb ≠ c := fun e he => by
      have := h₁ e he; simpa using this
    have h₂' : ∀ e ∈ l₂, e.cb ≠ c := fun e he => by
      have := h₂ e he; simpa using this
    subst hl
    rw [removeLoop_decomp m l₁ l₂ hm h₁' h₂']
    rw [List.filter_append, List.filter_cons]
    have hmf : (! decide (m.cb = c)) = false := by simp [hm]
    rw [hmf]
    simp only [Bool.false_eq_true, if_false]
    rw [List.filter_eq_self.mpr (fun a ha => by simpa using h₁' a ha),
      List.filter_eq_self.mpr (fun a ha => by simpa using h₂' a ha)]

theorem invokedOf_append (s₁ s₂ : List Step) :
    invokedOf (s₁ ++ s₂) = invokedOf s₁ ++ invokedOf s₂ := by
  induction s₁ with
  | nil => rfl
  | cons a rest ih => cases a <;> simp [invokedOf, ih]

theorem handledCount_append (s₁ s₂ : List Step) :
    handledCount (s₁ ++ s₂) = handledCount s₁ + handledCount s₂ := by
  induction s₁ with
  | nil => simp [handledCount]
  | cons a rest ih => cases a <;> simp [handledCount, ih] <;> omega

theorem countTargetCalls_append (tgt : Nat) (s₁ s₂ : List Step) :
    countTargetCalls tgt (s₁ ++ s₂) =
      countTargetCalls tgt s₁ + countTargetCalls tgt s₂ := by
  induction s₁ with
  | nil => simp [countTargetCalls]
  | cons a rest ih => cases a <;> simp [countTargetCalls, ih] <;> omega

theorem invokedOf_wrapperSteps (raises : RaisesOracle) (factory : Json → Json)
    (cb : Callback) (event : List (String × Json)) :
    invokedOf (wrapperSteps raises factory cb event) = [] := by
  cases cb with
  | plain i => rfl
  | wrapper w tgt flds =>
    by_cases h : raises (Callback.wrapper w tgt flds) event = true
    · simp [wrapperSteps, h, invokedOf]
    · simp only [Bool.not_eq_true] at h
      simp [wrapperSteps, h, invokedOf]

theorem handledCount_wrapperSteps (raises : RaisesOracle) (factory : Json → Json)
    (cb : Callback) (event : List (String × Json)) :
    handledCount (wrapperSteps raises factory cb event) = 0 := by
  cases cb with
  | plain i => rfl
  | wrapper w tgt flds =>
    by_cases h : raises (Callback.wrapper w tgt flds) event = true
    · simp [wrapperSteps, h, handledCount]
    · simp only [Bool.not_eq_true] at h
      simp [wrapperSteps, h, handledCount]

theorem dispatch_invoked (mo : MutOracle) (raises : RaisesOracle)
    (factory : Json → Json) :
    ∀ (L : List Entry) (event : List (String × Json)) (st : Registry),
      invokedOf (dispatchSnapshot mo raises factory L event st).2 =
        L.map (fun l => (l, event))
  | [], _, _ => rfl
  | l :: rest, event, st => by
    have ih := dispatch_invoked mo raises factory rest event (mo l.cb event st)
    by_cases h : raises l.cb event = true <;>
      simp [dispatchSnapshot, invokedOf, invokedOf_append,
        invokedOf_wrapperSteps, h, ih]

theorem dispatch_handled (mo : MutOracle) (raises : RaisesOracle)
    (factory : Json → Json) :
    ∀ (L : List Entry) (event : List (String × Json)) (st : Registry),
      handledCount (dispatchSnapshot mo raises factory L event st).2 =
        L.countP (fun l => raises l.cb event)
  | [], _, _ => by simp [dispatchSnapshot, handledCount, List.countP_nil]
  | l :: rest, event, st => by
    have ih := dispatch_handled mo raises factory rest event (mo l.cb event st)
    by_cases h : raises l.cb event = true <;>
      simp [dispatchSnapshot, handledCount, handledCount_append,
        handledCount_wrapperSteps, h, ih, List.countP_cons] <;> omega

theorem didRaise_prependSteps (pre : List Step) (r : DrainResult) :
    (prependSteps pre r).didRaise = r.didRaise := by
  cases r <;> rfl

theorem registry_prependSteps (pre : List Step) (r : DrainResult) :
    (prependSteps pre r).registry = r.registry := by
  cases r <;> rfl

theorem steps_prependSteps (pre : List Step) (r : DrainResult) :
    (prependSteps pre r).steps = pre ++ r.steps := by
  cases r <;> rfl

theorem processFrame_none_iff (mo : MutOracle) (raises : RaisesOracle)
    (factory : Json → Json) (st : Registry) (j : Json) :
    processFrame mo raises factory st j = none ↔
      frameRaises (Frame.decoded j) = true := by
  cases j with
  | obj msg =>
    cases h : alookup msg tyKey with
    | none => simp [processFrame, frameRaises, h]
    | some tv => cases tv <;> simp [processFrame, frameRaises, h]
  | null => simp [processFrame, frameRaises]
  | bool b => simp [processFrame, frameRaises]
  | num n => simp [processFrame, frameRaises]
  | str s => simp [processFrame, frameRaises]
  | arr es => simp [processFrame, frameRaises]

theorem drain_didRaise (mo : MutOracle) (raises : RaisesOracle)
    (factory : Json → Json) :
    ∀ (st : Registry) (frames : List Frame),
      (drain mo raises factory st frames).didRaise = true ↔
        ∃ f ∈ frames, frameRaises f = true
  | _, [] => by simp [drain, DrainResult.didRaise]
  | st, Frame.undecodable :: rest => by
    simp [drain, DrainResult.didRaise, frameRaises]
  | st, Frame.decoded j :: rest => by
    cases hp : processFrame mo raises factory st j with
    | none =>
      have hr : frameRaises (Frame.decoded j) = true :=
        (processFrame_none_iff mo raises factory st j).mp hp
      simp [drain, hp, DrainResult.didRaise, hr]
    | some p =>
      have hrf : frameRaises (Frame.decoded j) = false := by
        cases hfr : frameRaises (Frame.decoded j)
        · rfl
        · have hn := (processFrame_none_iff mo raises factory st j).mpr hfr
          rw [hn] at hp
          exact Option.noConfusion hp
      have hd : drain mo raises factory st (Frame.decoded j :: rest) =
          prependSteps p.2 (drain mo raises factory p.1 rest) := by
        simp [drain, hp]
      rw [hd, didRaise_prependSteps,
        drain_didRaise mo raises factory p.1 rest]
      constructor
      · rintro ⟨f, hf, hfr⟩
        exact ⟨f, List.mem_cons_of_mem _ hf, hfr⟩
      · rintro ⟨f, hf, hfr⟩
        rcases List.mem_cons.mp hf with h1 | h1
        · subst h1
          rw [hrf] at hfr
          exact Bool.noConfusion hfr
        · exact ⟨f, h1, hfr⟩

/-! Claim C1. -/

/-- Claim C1 (amended): a frame that json.loads decodes to a non-object
value, or to an object lacking the 'type' key, is logged and discarded
by Client.__run: the registry is untouched, no listener is invoked, and
the loop continues with the remaining frames (it subsequently raises
exactly at a later frame that itself raises: undecodable text, or an
object whose 'type' value is an unhashable list or dict); an
undecodable frame, by contrast, terminates the loop at once with the
JSONDecodeError from json.loads propagating (no listener invoked for
it, no log step). -/
theorem c1_malformed_decoded_frames_discarded (mo : MutOracle)
    (raises : RaisesOracle) (factory : Json → Json) (st : Registry)
    (j : Json) (rest : List Frame) (h : malformedRecord j = true) :
    processFrame mo raises factory st j = some (st, [Step.logInvalid]) ∧
    drain mo raises factory st (Frame.decoded j :: rest) =
      prependSteps [Step.logInvalid] (drain mo raises factory st rest) ∧
    ((drain mo raises factory st (Frame.decoded j :: rest)).didRaise = true ↔
      ∃ f ∈ rest, frameRaises f = true) ∧
    drain mo raises factory st (Frame.undecodable :: rest) =
      DrainResult.raised st [] := by
  have hp : processFrame mo raises factory st j = some (st, [Step.logInvalid]) := by
    cases j with
    | obj kvs =>
      simp only [malformedRecord, Option.isNone_iff_eq_none] at h
      simp [processFrame, h]
    | null => rfl
    | bool b => rfl
    | num n => rfl
    | str s => rfl
    | arr es => rfl
  have hd : drain mo raises factory st (Frame.decoded j :: rest) =
      prependSteps [Step.logInvalid] (drain mo raises factory st rest) := by
    simp only [drain, hp]
  refine ⟨hp, hd, ?_, rfl⟩
  rw [hd, didRaise_prependSteps]
  exact drain_didRaise mo raises factory st rest

/-- Claim C1 counterexample: as stated the claim is false for inbound
frame strings that are not decodable JSON.  json.loads raises an
uncaught JSONDecodeError inside Client.__run, so the loop terminates
with the exception propagating (didRaise), and a subsequent
frame - which would at least record its log step if processing
continued - is never reached (the step trace stays empty). -/
theorem c1_counterexample :
    (drain moId raisesNever factoryId emptyReg
        [Frame.undecodable, Frame.decoded (Json.arr [])]).didRaise = true ∧
    (drain moId raisesNever factoryId emptyReg
        [Frame.undecodable, Frame.decoded (Json.arr [])]).steps = [] :=
  ⟨rfl, rfl⟩

/-- Claim C1 witness: the amended theorem evaluated for a decoded JSON
array (a malformed record) followed by the empty stream. -/
theorem c1_witness :
    processFrame moId raisesNever factoryId emptyReg (Json.arr []) =
      some (emptyReg, [Step.logInvalid]) ∧
    drain moId raisesNever factoryId emptyReg [Frame.decoded (Json.arr [])] =
      prependSteps [Step.logInvalid]
        (drain moId raisesNever factoryId emptyReg []) ∧
    ((drain moId raisesNever factoryId emptyReg
        [Frame.decoded (Json.arr [])]).didRaise = true ↔
      ∃ f ∈ ([] : List Frame), frameRaises f = true) ∧
    drain moId raisesNever factoryId emptyReg [Frame.undecodable] =
      DrainResult.raised emptyReg [] :=
  c1_malformed_decoded_frames_discarded moId raisesNever factoryId emptyReg
    (Json.arr []) [] rfl

/-! Claim C3. -/

/-- Claim C3: given the snapshot L for the event's type, if listener k
of the snapshot raises, the exception is caught and routed to the
exception handler - the trace has one handler step per raising listener,
so exactly one for that failure - while every listener of the snapshot,
including k+1..N, is still invoked in order with the same event, and the
drain loop continues to the next frames: a listener exception never
makes the loop raise (for the dispatched event's own frame, whose
'type' value is a string, and for any following frames that do not
themselves raise - undecodable text or an unhashable 'type' value being
the only raising frames, independent of listener behaviour). -/
theorem c3_listener_failure_isolated (mo : MutOracle) (raises : RaisesOracle)
    (factory : Json → Json) (L : List Entry) (event : List (String × Json))
    (st : Registry) (k : Nat) (hk : k < L.length)
    (hraise : raises (L.get ⟨k, hk⟩).cb event = true) :
    invokedOf (dispatchSnapshot mo raises factory L event st).2 =
      L.map (fun l => (l, event)) ∧
    handledCount (dispatchSnapshot mo raises factory L event st).2 =
      L.countP (fun l => raises l.cb event) ∧
    1 ≤ L.countP (fun l => raises l.cb event) ∧
    (∀ (rest : List Frame) (s : String),
      alookup event tyKey = some (Json.str s) →
      (∀ f ∈ rest, frameRaises f = false) →
      (drain mo raises factory st
        (Frame.decoded (Json.obj event) :: rest)).didRaise = false) := by
  refine ⟨dispatch_invoked mo raises factory L event st,
    dispatch_handled mo raises factory L event st, ?_, ?_⟩
  · exact List.countP_pos_iff.mpr ⟨L.get ⟨k, hk⟩, L.get_mem .., hraise⟩
  · intro rest s hty hrest
    have hfr : frameRaises (Frame.decoded (Json.obj event)) = false := by
      simp [frameRaises, hty]
    cases hb : (drain mo raises factory st
        (Frame.decoded (Json.obj event) :: rest)).didRaise with
    | false => rfl
    | true =>
      rcases (drain_didRaise mo raises factory st
          (Frame.decoded (Json.obj event) :: rest)).mp hb with ⟨f, hf, hfr2⟩
      rcases List.mem_cons.mp hf with h1 | h1
      · subst h1
        rw [hfr] at hfr2
        exact Bool.noConfusion hfr2
      · rw [hrest f h1] at hfr2
        exact Bool.noConfusion hfr2

/-- Claim C3 witness: two listeners for type T, the first of which
raises; both are invoked with the event, the handler runs once, and a
one-frame stream carrying the event does not make the loop raise. -/
theorem c3_witness :
    invokedOf (dispatchSnapshot moId raisesPlain0 factoryId
        [entryP0, entryP1] evT emptyReg).2 =
      [(entryP0, evT), (entryP1, evT)] ∧
    handledCount (dispatchSnapshot moId raisesPlain0 factoryId
        [entryP0, entryP1] evT emptyReg).2 = 1 ∧
    (drain moId raisesPlain0 factoryId emptyReg
        [Frame.decoded (Json.obj evT)]).didRaise = false := by
  have h := c3_listener_failure_isolated moId raisesPlain0 factoryId
    [entryP0, entryP1] evT emptyReg 0 (by decide) rfl
  refine ⟨?_, ?_, ?_⟩
  · rw [h.1]; rfl
  · rw [h.2.1]; rfl
  · exact h.2.2.2 [] sT (by simp [evT, alookup]) (by simp)

/-! Claim C9. -/

/-- Claim C9: for a well-formed event whose 'type' value is the string
s, the set and order of listener invocations for that event are exactly
the snapshot of the registry's list for s taken when the frame is
processed (the list(...) copy in Client.__run).  The mutation oracle mo
is arbitrary - callbacks may register or unregister listeners at will,
including a listener unregistering itself - yet the invocation trace is
the snapshot, element for element: nothing is skipped, duplicated or
added for that event instance, and the dispatch is total (never raises
out of the iteration). -/
theorem c9_dispatch_snapshot_stable (mo : MutOracle) (raises : RaisesOracle)
    (factory : Json → Json) (st : Registry) (kvs : List (String × Json))
    (s : String) (h : alookup kvs tyKey = some (Json.str s)) :
    processFrame mo raises factory st (Json.obj kvs) =
      some (dispatchSnapshot mo raises factory (st s) kvs st) ∧
    invokedOf (dispatchSnapshot mo raises factory (st s) kvs st).2 =
      (st s).map (fun l => (l, kvs)) := by
  constructor
  · simp [processFrame, h]
  · exact dispatch_invoked mo raises factory (st s) kvs st

/-- Claim C9 witness: two listeners for type T dispatched under the
harshest mutation oracle, whose callbacks wipe the whole registry while
dispatch is in flight; both snapshot entries are still invoked, in
order, with the event. -/
theorem c9_witness :
    processFrame moKill raisesNever factoryId stT (Json.obj evT) =
      some (dispatchSnapshot moKill raisesNever factoryId (stT sT) evT stT) ∧
    invokedOf (dispatchSnapshot moKill raisesNever factoryId
        (stT sT) evT stT).2 = (stT sT).map (fun l => (l, evT)) :=
  c9_dispatch_snapshot_stable moKill raisesNever factoryId stT evT sT
    (by simp [evT, alookup])

/-! Claim C4. -/

/-- Claim C4 counterexample: the claim's identity-exactness fails.
Register plain callback 0 for type T with no extra arguments (handle
H1), register it again identically (the replacement removes H1's tuple
and appends a new tuple object that compares equal to it; one entry
remains), then call H1's close.  The claim requires a no-op - H1's own
entry was already removed by replacement, and the remaining entry is a
different tuple that merely compares equal - leaving 1 entry; but
EventUnsubscriber.close tests membership and removes by value equality
(client.py:142-143), so it removes the replacement: 0 entries remain. -/
theorem c4_counterexample :
    ((unsubscribe (on_event (on_event emptyReg sT (Callback.plain 0) [] []).1
        sT (Callback.plain 0) [] []).1 sT
        (on_event emptyReg sT (Callback.plain 0) [] []).2) sT).length = 0 ∧
    ((on_event (on_event emptyReg sT (Callback.plain 0) [] []).1
        sT (Callback.plain 0) [] []).1 sT).length = 1 := by
  constructor
  · decide
  · decide

/-- Claim C4 (amended): close removes the first entry of the type's
list that compares equal (same callback identity, equal extra
args/kwargs) to the tuple its registration created - exactly one
occurrence of that entry value disappears and every other entry value's
occurrence count is untouched - and it is a no-op exactly when no equal
entry is present (so after unregistration, or after replacement by a
registration with different extras; after replacement by an equal tuple
it instead removes the replacement, see the counterexample).  In the
concrete scenario - register A then B for type T, close A's handle,
dispatch an event of type T - the frame is processed without raising
and only B is invoked. -/
theorem c4_handle_close_exact :
    (∀ (st : Registry) (t : String) (co : Entry), co ∈ st t →
      (unsubscribe st t co) t = pyRemove (st t) co ∧
      countE co ((unsubscribe st t co) t) + 1 = countE co (st t) ∧
      (∀ e : Entry, e ≠ co →
        countE e ((unsubscribe st t co) t) = countE e (st t))) ∧
    (∀ (st : Registry) (t : String) (co : Entry), co ∉ st t →
      unsubscribe st t co = st) ∧
    (∀ (st : Registry) (t : String) (a b : Callback)
      (argsA : List Nat) (kwargsA : List (String × Nat))
      (argsB : List Nat) (kwargsB : List (String × Nat))
      (mo : MutOracle) (raises : RaisesOracle) (factory : Json → Json),
      a ≠ b → st t = [] →
      processFrame mo raises factory
          (unsubscribe
            (on_event (on_event st t a argsA kwargsA).1 t b argsB kwargsB).1
            t (on_event st t a argsA kwargsA).2)
          (Json.obj [(tyKey, Json.str t)]) =
        some (dispatchSnapshot mo raises factory
          ((unsubscribe
            (on_event (on_event st t a argsA kwargsA).1 t b argsB kwargsB).1
            t (on_event st t a argsA kwargsA).2) t)
          [(tyKey, Json.str t)]
          (unsubscribe
            (on_event (on_event st t a argsA kwargsA).1 t b argsB kwargsB).1
            t (on_event st t a argsA kwargsA).2)) ∧
      invokedOf (dispatchSnapshot mo raises factory
          ((unsubscribe
            (on_event (on_event st t a argsA kwargsA).1 t b argsB kwargsB).1
            t (on_event st t a argsA kwargsA).2) t)
          [(tyKey, Json.str t)]
          (unsubscribe
            (on_event (on_event st t a argsA kwargsA).1 t b argsB kwargsB).1
            t (on_event st t a argsA kwargsA).2)).2 =
        [((on_event (on_event st t a argsA kwargsA).1 t b argsB kwargsB).2,
          [(tyKey, Json.str t)])]) := by
  refine ⟨?_, ?_, ?_⟩
  · intro st t co hmem
    have hu : (unsubscribe st t co) t = pyRemove (st t) co := by
      simp only [unsubscribe, if_pos hmem, updateReg_same]
    refine ⟨hu, ?_, ?_⟩
    · rw [hu]
      exact count_pyRemove_self hmem
    · intro e he
      rw [hu]
      exact count_pyRemove_other he (st t)
  · intro st t co hmem
    simp only [unsubscribe, if_neg hmem]
  · intro st t a b argsA kwargsA argsB kwargsB mo raises factory hab h0
    have hcoA : (on_event st t a argsA kwargsA).2 = (⟨a, argsA, kwargsA⟩ : Entry) := rfl
    have hcoB : (on_event (on_event st t a argsA kwargsA).1 t b argsB kwargsB).2 =
        (⟨b, argsB, kwargsB⟩ : Entry) := rfl
    have h1 : (on_event st t a argsA kwargsA).1 t = [⟨a, argsA, kwargsA⟩] := by
      simp [on_event, updateReg_same, h0, removeLoop_nil]
    have h2 : (on_event (on_event st t a argsA kwargsA).1 t b argsB kwargsB).1 t =
        [⟨a, argsA, kwargsA⟩, ⟨b, argsB, kwargsB⟩] := by
      have hrl : removeLoop [(⟨a, argsA, kwargsA⟩ : Entry)] b =
          [⟨a, argsA, kwargsA⟩] :=
        removeLoop_no_match (by
          intro e he
          rw [List.mem_singleton] at he
          subst he
          exact hab)
      simp only [on_event, updateReg_same, h1, hrl]
      rw [h0, removeLoop_nil, List.nil_append, hrl]
      rfl
    have h3 : (unsubscribe
        (on_event (on_event st t a argsA kwargsA).1 t b argsB kwargsB).1
        t (on_event st t a argsA kwargsA).2) t =
        [⟨b, argsB, kwargsB⟩] := by
      have hmem : (on_event st t a argsA kwargsA).2 ∈
          (on_event (on_event st t a argsA kwargsA).1 t b argsB kwargsB).1 t := by
        rw [h2, hcoA]
        exact List.mem_cons_self ..
      rw [unsubscribe, if_pos hmem, updateReg_same, h2, hcoA, pyRemove_cons_self]
    have hty : alookup [(tyKey, Json.str t)] tyKey = some (Json.str t) := by
      simp [alookup]
    constructor
    · simp [processFrame, hty]
    · rw [dispatch_invoked, h3, hcoB]
      rfl

/-- Claim C4 witness: the scenario conjunct evaluated with plain
callbacks 0 (A) and 1 (B) for type T starting from the empty registry;
dispatching a type-T event after closing A's handle invokes only B. -/
theorem c4_witness :
    invokedOf (dispatchSnapshot moId raisesNever factoryId
        ((unsubscribe
          (on_event (on_event emptyReg sT (Callback.plain 0) [] []).1
            sT (Callback.plain 1) [] []).1
          sT (on_event emptyReg sT (Callback.plain 0) [] []).2) sT)
        [(tyKey, Json.str sT)]
        (unsubscribe
          (on_event (on_event emptyReg sT (Callback.plain 0) [] []).1
            sT (Callback.plain 1) [] []).1
          sT (on_event emptyReg sT (Callback.plain 0) [] []).2)).2 =
      [((on_event (on_event emptyReg sT (Callback.plain 0) [] []).1
          sT (Callback.plain 1) [] []).2, [(tyKey, Json.str sT)])] :=
  (c4_handle_close_exact.2.2 emptyReg sT (Callback.plain 0) (Callback.plain 1)
    [] [] [] [] moId raisesNever factoryId (by decide) rfl).2

/-! Claim C5. -/

/-- Claim C5: when exactly one entry with callback identity c is present
in T's list (the most that can be, by the replace-on-register and
remove-on-close discipline), registering c again removes that old entry
and appends the fresh tuple: the new list is the old one with the
c-entries filtered out plus the new entry at the end, so it has exactly
one entry with identity c and that entry is last. -/
theorem c5_register_replace_by_identity (st : Registry) (t : String)
    (c : Callback) (args : List Nat) (kwargs : List (String × Nat))
    (h : countCb c (st t) = 1) :
    (on_event st t c args kwargs).1 t =
      (st t).filter (fun e => ! decide (e.cb = c)) ++ [⟨c, args, kwargs⟩] ∧
    (on_event st t c args kwargs).2 = (⟨c, args, kwargs⟩ : Entry) ∧
    countCb c ((on_event st t c args kwargs).1 t) = 1 ∧
    ((on_event st t c args kwargs).1 t).getLast? =
      some (⟨c, args, kwargs⟩ : Entry) := by
  have hrl : removeLoop (st t) c =
      (st t).filter (fun e => ! decide (e.cb = c)) :=
    removeLoop_eq_filter (le_of_eq h)
  have h1 : (on_event st t c args kwargs).1 t =
      (st t).filter (fun e => ! decide (e.cb = c)) ++ [⟨c, args, kwargs⟩] := by
    simp [on_event, updateReg_same, hrl]
  refine ⟨h1, rfl, ?_, ?_⟩
  · rw [h1]
    unfold countCb
    rw [List.countP_append]
    have hz : ((st t).filter (fun e => ! decide (e.cb = c))).countP
        (fun e => decide (e.cb = c)) = 0 := by
      refine List.countP_eq_zero.mpr ?_
      intro e he
      have := List.of_mem_filter he
      simpa using this
    rw [hz]
    simp [List.countP_cons]
  · rw [h1]
    exact List.getLast?_concat _

/-- Claim C5 witness: re-registering plain callback 0 for type X, whose
list holds exactly one entry with that identity, replaces it and leaves
the new tuple (with fresh extra arguments) as the single, last entry. -/
theorem c5_witness :
    (on_event stX0 sX (Callback.plain 0) [7] []).1 sX =
      (stX0 sX).filter (fun e => ! decide (e.cb = Callback.plain 0)) ++
        [⟨Callback.plain 0, [7], []⟩] ∧
    (on_event stX0 sX (Callback.plain 0) [7] []).2 =
      (⟨Callback.plain 0, [7], []⟩ : Entry) ∧
    countCb (Callback.plain 0) ((on_event stX0 sX (Callback.plain 0) [7] []).1 sX) = 1 ∧
    ((on_event stX0 sX (Callback.plain 0) [7] []).1 sX).getLast? =
      some (⟨Callback.plain 0, [7], []⟩ : Entry) :=
  c5_register_replace_by_identity stX0 sX (Callback.plain 0) [7] [] (by decide)

/-! Claim C6. -/

/-- Claim C6 counterexample: with plain callback 0 already registered
for type X (one entry), registering it again and immediately closing the
returned handle leaves zero entries for X, not the one entry there was
before the register call - the register replaced (removed) the old entry
and the close removed the new one. -/
theorem c6_counterexample :
    ((unsubscribe (on_event stX0 sX (Callback.plain 0) [] []).1 sX
        (on_event stX0 sX (Callback.plain 0) [] []).2) sX).length = 0 ∧
    (stX0 sX).length = 1 := by
  constructor
  · decide
  · decide

/-- Claim C6 (amended): provided no entry with callback identity c is
registered for T yet, on_event followed immediately by close on the
returned handle restores T's listener list - and so its entry
count - exactly; when such an entry exists the round trip instead
replaces it and then removes the replacement, decreasing the count
(see the counterexample). -/
theorem c6_register_close_roundtrip (st : Registry) (t : String)
    (c : Callback) (args : List Nat) (kwargs : List (String × Nat))
    (h : countCb c (st t) = 0) :
    (unsubscribe (on_event st t c args kwargs).1 t
        (on_event st t c args kwargs).2) t = st t ∧
    ((unsubscribe (on_event st t c args kwargs).1 t
        (on_event st t c args kwargs).2) t).length = (st t).length := by
  have hnm : ∀ e ∈ st t, e.cb ≠ c := fun e he => by
    have := List.countP_eq_zero.mp h e he
    simpa using this
  have hrl : removeLoop (st t) c = st t := removeLoop_no_match hnm
  have h1 : (on_event st t c args kwargs).1 t = st t ++ [⟨c, args, kwargs⟩] := by
    simp [on_event, updateReg_same, hrl]
  have hmem : (on_event st t c args kwargs).2 ∈ (on_event st t c args kwargs).1 t := by
    rw [h1]
    exact List.mem_append_right _ (List.mem_singleton.mpr rfl)
  have hne : ∀ y ∈ st t, y ≠ (⟨c, args, kwargs⟩ : Entry) := fun y hy heq =>
    hnm y hy (by rw [heq])
  have h2 : (unsubscribe (on_event st t c args kwargs).1 t
      (on_event st t c args kwargs).2) t = st t := by
    have hco : (on_event st t c args kwargs).2 = (⟨c, args, kwargs⟩ : Entry) := rfl
    rw [unsubscribe, if_pos hmem, updateReg_same, h1, hco]
    have : pyRemove (st t ++ (⟨c, args, kwargs⟩ : Entry) :: []) ⟨c, args, kwargs⟩ =
        st t ++ [] := pyRemove_append_of_ne [] hne
    simpa using this
  exact ⟨h2, by rw [h2]⟩

/-- Claim C6 witness: the amended round trip evaluated from the empty
registry for type T with plain callback 0. -/
theorem c6_witness :
    (unsubscribe (on_event emptyReg sT (Callback.plain 0) [] []).1 sT
        (on_event emptyReg sT (Callback.plain 0) [] []).2) sT = emptyReg sT ∧
    ((unsubscribe (on_event emptyReg sT (Callback.plain 0) [] []).1 sT
        (on_event emptyReg sT (Callback.plain 0) [] []).2) sT).length =
      (emptyReg sT).length :=
  c6_register_close_roundtrip emptyReg sT (Callback.plain 0) [] [] (by decide)

/-! Claim C2. -/

/-- Claim C2: extract_objects branches on the schema's eligible-field
count, never on the record's populated-field count.  When the schema has
exactly one field of the model type, the callback receives the bare
built object if that field is populated (present and truthy) in the
record and nothing (None) if it is not; when the schema has two or more
such fields, it receives the name-to-object mapping whose entries are
exactly the populated eligible fields - absent or falsy fields are
omitted, never mapped to None (the mapping holds built objects only). -/
theorem c2_extract_collapsing {α : Type} (factory : Json → α)
    (props : List (String × String)) (mid : String)
    (event : List (String × Json)) :
    (∀ f, eligibleFields props mid = [f] →
      (∀ v, populatedLookup event f = some v →
        extract_objects factory (eligibleFields props mid) event =
          ExtractResult.one (factory v)) ∧
      (populatedLookup event f = none →
        extract_objects factory (eligibleFields props mid) event =
          ExtractResult.nothing)) ∧
    (2 ≤ (eligibleFields props mid).length →
      ∃ m, extract_objects factory (eligibleFields props mid) event =
          ExtractResult.many m ∧
        ∀ f a, (f, a) ∈ m ↔ (f ∈ eligibleFields props mid ∧
          ∃ v, populatedLookup event f = some v ∧ a = factory v)) := by
  constructor
  · intro f hf
    constructor
    · intro v hv
      rw [hf]
      simp [extract_objects, List.filterMap_cons, hv]
    · intro hv
      rw [hf]
      simp [extract_objects, List.filterMap_cons, hv]
  · intro h2
    refine ⟨(eligibleFields props mid).filterMap (fun f =>
      match populatedLookup event f with
      | some v => some (f, factory v)
      | none => none), ?_, ?_⟩
    · simp only [extract_objects]
      rw [if_neg (by omega)]
    · intro f a
      rw [List.mem_filterMap]
      constructor
      · rintro ⟨x, hx, hgx⟩
        cases hpl : populatedLookup event x with
        | none =>
          rw [hpl] at hgx
          exact absurd hgx (by simp)
        | some v =>
          rw [hpl] at hgx
          have hpair : (x, factory v) = (f, a) := by
            injection hgx
          have hxf : x = f := congrArg Prod.fst hpair
          have hav : a = factory v := (congrArg Prod.snd hpair).symm
          subst hxf
          exact ⟨hx, v, hpl, hav⟩
      · rintro ⟨hf, v, hpl, ha⟩
        refine ⟨f, hf, ?_⟩
        rw [hpl, ha]

/-- Claim C2 witness: a schema with the single Channel field channel and
a record populating it; the collapsed single object is delivered. -/
theorem c2_witness :
    extract_objects factory42
        (eligibleFields [(fChannel, sChannel), (fOther, sString)] sChannel)
        [(fChannel, Json.num 5)] =
      ExtractResult.one (factory42 (Json.num 5)) :=
  ((c2_extract_collapsing factory42 [(fChannel, sChannel), (fOther, sString)]
      sChannel [(fChannel, Json.num 5)]).1 fChannel (by decide)).1
    (Json.num 5) rfl

/-! Claim C7. -/

/-- Claim C7: on_object_event raises synchronously at registration time
exactly when the event type has no model in the catalog or the model has
no field of the requested type; on either error the whole client state
(in particular the listener registry) is returned untouched - no entry
is added - and on success the registered wrapper closure carries the
eligible field list computed from the schema once, at registration time
(dispatch never consults the catalog: processFrame takes none). -/
theorem c7_registration_schema_errors (models : Models) (cs : ClientState)
    (t : String) (target : Nat) (mid : String) (args : List Nat)
    (kwargs : List (String × Nat)) :
    ((∃ msg, (on_object_event models cs t target mid args kwargs).2 =
        Except.error msg) ↔
      (alookup models t = none ∨
        ∃ props, alookup models t = some props ∧
          eligibleFields props mid = [])) ∧
    (∀ msg, (on_object_event models cs t target mid args kwargs).2 =
        Except.error msg →
      (on_object_event models cs t target mid args kwargs).1 = cs) ∧
    (∀ en, (on_object_event models cs t target mid args kwargs).2 =
        Except.ok en →
      ∃ props, alookup models t = some props ∧
        eligibleFields props mid ≠ [] ∧
        en.cb = Callback.wrapper cs.nextWid target (eligibleFields props mid)) := by
  cases hm : alookup models t with
  | none =>
    refine ⟨?_, ?_, ?_⟩
    · simp [on_object_event, hm]
    · intro msg _
      simp [on_object_event, hm]
    · intro en hen
      simp [on_object_event, hm] at hen
  | some props =>
    by_cases he : eligibleFields props mid = []
    · refine ⟨?_, ?_, ?_⟩
      · simp [on_object_event, hm, he]
      · intro msg _
        simp [on_object_event, hm, he]
      · intro en hen
        simp [on_object_event, hm, he] at hen
    · have hcomp : on_object_event models cs t target mid args kwargs =
          (((ClientState.mk cs.listeners (cs.nextWid + 1)).on_event t
              (Callback.wrapper cs.nextWid target (eligibleFields props mid))
              args kwargs).1,
            Except.ok (((ClientState.mk cs.listeners (cs.nextWid + 1)).on_event t
              (Callback.wrapper cs.nextWid target (eligibleFields props mid))
              args kwargs).2)) := by
        simp only [on_object_event, hm]
        rw [if_neg he]
      refine ⟨?_, ?_, ?_⟩
      · rw [hcomp]
        constructor
        · rintro ⟨msg, hmsg⟩
          exact absurd hmsg (by simp)
        · rintro (h1 | ⟨props2, hp2, he2⟩)
          · exact absurd h1 (by simp)
          · have hpp : props = props2 := by injection hp2
            exact absurd he2 (hpp ▸ he)
      · intro msg hmsg
        rw [hcomp] at hmsg
        exact absurd hmsg (by simp)
      · intro en hen
        refine ⟨props, rfl, he, ?_⟩
        rw [hcomp] at hen
        have hr : ((ClientState.mk cs.listeners (cs.nextWid + 1)).on_event t
            (Callback.wrapper cs.nextWid target (eligibleFields props mid))
            args kwargs).2 = en := by
          injection hen
        rw [← hr]
        rfl

/-- Claim C7 witness: registering for event type T with model type
Playback, of which T's schema has no field, errors and leaves the fresh
client state untouched. -/
theorem c7_witness :
    (on_object_event modelsTX cs0 sT 7 sPlayback [] []).1 = cs0 :=
  (c7_registration_schema_errors modelsTX cs0 sT 7 sPlayback [] []).2.1
    (noFieldsMsg sT sPlayback) rfl

/-! Claim C8. -/

theorem mem_setAdd_self (s : List Nat) (w : Nat) : w ∈ setAdd s w := by
  unfold setAdd
  by_cases h : w ∈ s
  · simp [h]
  · simp [h]

theorem nodup_setAdd {s : List Nat} (w : Nat) (h : s.Nodup) :
    (setAdd s w).Nodup := by
  unfold setAdd
  by_cases hm : w ∈ s
  · simpa [hm]
  · simp only [hm, if_false]
    rw [List.nodup_append]
    refine ⟨h, List.nodup_singleton w, ?_⟩
    intro a ha hb
    rw [List.mem_singleton] at hb
    exact hm (hb ▸ ha)

/-- Claim C8: whatever the drained stream does - ends normally, or makes
the loop raise (the escaping exceptions being the JSONDecodeError of
json.loads on undecodable text and the TypeError of the listener lookup
on an unhashable 'type' value; an externally requested close makes recv
return the end-of-stream sentinel, i.e. the stream simply ends) -
Client.run's finally clause closes the websocket handle and removes it
from the client's active set before run returns or re-raises: the close
step is always in the trace and the handle is never in the final set,
and run re-raises exactly when the stream contains a raising frame. -/
theorem c8_run_cleanup (mo : MutOracle) (raises : RaisesOracle)
    (factory : Json → Json) (st : Registry) (wss : List Nat) (w : Nat)
    (frames : List Frame) (hnd : wss.Nodup) :
    w ∉ (clientRun mo raises factory st wss w frames).websockets ∧
    Step.wsClose w ∈ (clientRun mo raises factory st wss w frames).steps ∧
    ((clientRun mo raises factory st wss w frames).raised = true ↔
      ∃ f ∈ frames, frameRaises f = true) := by
  have hws : w ∉ setRemove (setAdd wss w) w :=
    not_mem_pyRemove_of_nodup (nodup_setAdd w hnd)
  have hraise := drain_didRaise mo raises factory st frames
  cases hdr : drain mo raises factory st frames with
  | finished st2 steps =>
    rw [hdr] at hraise
    simp only [DrainResult.didRaise, Bool.false_eq_true, false_iff] at hraise
    refine ⟨?_, ?_, ?_⟩
    · simpa [clientRun, hdr] using hws
    · simp [clientRun, hdr]
    · simp [clientRun, hdr, hraise]
  | raised st2 steps =>
    rw [hdr] at hraise
    simp only [DrainResult.didRaise, true_iff] at hraise
    refine ⟨?_, ?_, ?_⟩
    · simpa [clientRun, hdr] using hws
    · simp [clientRun, hdr]
    · simp [clientRun, hdr, hraise]

/-- Claim C8 witness: run over a one-frame stream whose frame is
undecodable; run re-raises, yet the handle is closed and out of the
active set. -/
theorem c8_witness :
    5 ∉ (clientRun moId raisesNever factoryId emptyReg [] 5
        [Frame.undecodable]).websockets ∧
    Step.wsClose 5 ∈ (clientRun moId raisesNever factoryId emptyReg [] 5
        [Frame.undecodable]).steps ∧
    ((clientRun moId raisesNever factoryId emptyReg [] 5
        [Frame.undecodable]).raised = true ↔
      ∃ f ∈ [Frame.undecodable], frameRaises f = true) :=
  c8_run_cleanup moId raisesNever factoryId emptyReg [] 5 [Frame.undecodable]
    List.nodup_nil

/-! Claim C10. -/

/-- Claim C10: each on_object_event call registers a freshly created
wrapper closure (a new function object - here a fresh wid from the
client's allocator), never the caller's callback itself, so on_event's
replace-by-identity cannot fire across on_object_event calls: calling it
twice for the same event type with the same target callback yields two
distinct listener entries, both present in registration order, and a
matching event makes dispatch call that target callback twice (each
completed wrapper invocation calls its event_cb once). -/
theorem c10_wrapper_fresh_no_replace (models : Models) (cs : ClientState)
    (t : String) (target : Nat) (mid : String) (props : List (String × String))
    (args1 : List Nat) (kwargs1 : List (String × Nat))
    (args2 : List Nat) (kwargs2 : List (String × Nat))
    (h0 : cs.listeners t = [])
    (hm : alookup models t = some props)
    (hf : eligibleFields props mid ≠ []) :
    (on_object_event models cs t target mid args1 kwargs1).2 =
      Except.ok (⟨Callback.wrapper cs.nextWid target (eligibleFields props mid),
        args1, kwargs1⟩ : Entry) ∧
    (on_object_event models
        (on_object_event models cs t target mid args1 kwargs1).1
        t target mid args2 kwargs2).2 =
      Except.ok (⟨Callback.wrapper (cs.nextWid + 1) target (eligibleFields props mid),
        args2, kwargs2⟩ : Entry) ∧
    (⟨Callback.wrapper cs.nextWid target (eligibleFields props mid),
        args1, kwargs1⟩ : Entry) ≠
      (⟨Callback.wrapper (cs.nextWid + 1) target (eligibleFields props mid),
        args2, kwargs2⟩ : Entry) ∧
    (on_object_event models
        (on_object_event models cs t target mid args1 kwargs1).1
        t target mid args2 kwargs2).1.listeners t =
      [⟨Callback.wrapper cs.nextWid target (eligibleFields props mid),
          args1, kwargs1⟩,
        ⟨Callback.wrapper (cs.nextWid + 1) target (eligibleFields props mid),
          args2, kwargs2⟩] ∧
    (∀ (mo : MutOracle) (factory : Json → Json),
      processFrame mo raisesNever factory
          (on_object_event models
            (on_object_event models cs t target mid args1 kwargs1).1
            t target mid args2 kwargs2).1.listeners
          (Json.obj [(tyKey, Json.str t)]) =
        some (dispatchSnapshot mo raisesNever factory
          ((on_object_event models
            (on_object_event models cs t target mid args1 kwargs1).1
            t target mid args2 kwargs2).1.listeners t)
          [(tyKey, Json.str t)]
          (on_object_event models
            (on_object_event models cs t target mid args1 kwargs1).1
            t target mid args2 kwargs2).1.listeners) ∧
      countTargetCalls target (dispatchSnapshot mo raisesNever factory
          ((on_object_event models
            (on_object_event models cs t target mid args1 kwargs1).1
            t target mid args2 kwargs2).1.listeners t)
          [(tyKey, Json.str t)]
          (on_object_event models
            (on_object_event models cs t target mid args1 kwargs1).1
            t target mid args2 kwargs2).1.listeners).2 = 2) := by
  have hA : on_object_event models cs t target mid args1 kwargs1 =
      (ClientState.mk (updateReg cs.listeners t
          [⟨Callback.wrapper cs.nextWid target (eligibleFields props mid),
            args1, kwargs1⟩])
        (cs.nextWid + 1),
       Except.ok (⟨Callback.wrapper cs.nextWid target (eligibleFields props mid),
          args1, kwargs1⟩ : Entry)) := by
    simp only [on_object_event, hm]
    rw [if_neg hf]
    simp only [ClientState.on_event, on_event, h0, removeLoop_nil,
      List.nil_append]
  have hcb : (Callback.wrapper cs.nextWid target (eligibleFields props mid)) ≠
      Callback.wrapper (cs.nextWid + 1) target (eligibleFields props mid) := by
    intro hc
    injection hc with h1 h2 h3
    omega
  have hL1 : (updateReg cs.listeners t
      [⟨Callback.wrapper cs.nextWid target (eligibleFields props mid),
        args1, kwargs1⟩]) t =
      [⟨Callback.wrapper cs.nextWid target (eligibleFields props mid),
        args1, kwargs1⟩] := updateReg_same ..
  have hrl2 : removeLoop
      [(⟨Callback.wrapper cs.nextWid target (eligibleFields props mid),
        args1, kwargs1⟩ : Entry)]
      (Callback.wrapper (cs.nextWid + 1) target (eligibleFields props mid)) =
      [⟨Callback.wrapper cs.nextWid target (eligibleFields props mid),
        args1, kwargs1⟩] :=
    removeLoop_no_match (by
      intro e he
      rw [List.mem_singleton] at he
      subst he
      exact hcb)
  have hB : on_object_event models
      (ClientState.mk (updateReg cs.listeners t
          [⟨Callback.wrapper cs.nextWid target (eligibleFields props mid),
            args1, kwargs1⟩])
        (cs.nextWid + 1)) t target mid args2 kwargs2 =
      (ClientState.mk
        (updateReg (updateReg cs.listeners t
            [⟨Callback.wrapper cs.nextWid target (eligibleFields props mid),
              args1, kwargs1⟩]) t
          [⟨Callback.wrapper cs.nextWid target (eligibleFields props mid),
              args1, kwargs1⟩,
            ⟨Callback.wrapper (cs.nextWid + 1) target (eligibleFields props mid),
              args2, kwargs2⟩])
        (cs.nextWid + 2),
       Except.ok (⟨Callback.wrapper (cs.nextWid + 1) target
          (eligibleFields props mid), args2, kwargs2⟩ : Entry)) := by
    simp only [on_object_event, hm]
    rw [if_neg hf]
    simp only [ClientState.on_event, on_event, hL1, hrl2]
    rfl
  refine ⟨by rw [hA], ?_, ?_, ?_, ?_⟩
  · rw [hA, hB]
  · intro he
    have := congrArg Entry.cb he
    exact hcb this
  · rw [hA, hB]
    exact updateReg_same ..
  · intro mo factory
    rw [hA, hB]
    have hty : alookup [(tyKey, Json.str t)] tyKey = some (Json.str t) := by
      simp [alookup]
    constructor
    · simp [processFrame, hty]
    · simp [dispatchSnapshot, wrapperSteps, raisesNever, countTargetCalls,
        countTargetCalls_append, updateReg_same]

/-- Claim C10 witness: two on_object_event registrations for type X
(whose schema has the two Channel fields channel and peer) with the same
target callback 7 from a fresh client; both wrapper entries are present
and a type-X event calls target 7 twice. -/
theorem c10_witness :
    (on_object_event modelsTX
        (on_object_event modelsTX cs0 sX 7 sChannel [] []).1
        sX 7 sChannel [] []).1.listeners sX =
      [⟨Callback.wrapper 0 7
          (eligibleFields [(fChannel, sChannel), (fPeer, sChannel)] sChannel),
          [], []⟩,
        ⟨Callback.wrapper 1 7
          (eligibleFields [(fChannel, sChannel), (fPeer, sChannel)] sChannel),
          [], []⟩] ∧
    countTargetCalls 7 (dispatchSnapshot moId raisesNever factoryId
        ((on_object_event modelsTX
          (on_object_event modelsTX cs0 sX 7 sChannel [] []).1
          sX 7 sChannel [] []).1.listeners sX)
        [(tyKey, Json.str sX)]
        (on_object_event modelsTX
          (on_object_event modelsTX cs0 sX 7 sChannel [] []).1
          sX 7 sChannel [] []).1.listeners).2 = 2 := by
  have h := c10_wrapper_fresh_no_replace modelsTX cs0 sX 7 sChannel
    [(fChannel, sChannel), (fPeer, sChannel)] [] [] [] [] rfl (by decide)
    (by decide)
  exact ⟨h.2.2.2.1, (h.2.2.2.2 moId factoryId).2⟩

/-! Reachability of the registry invariant used by the C4, C5 and C6
hypotheses: it holds initially and is preserved by both mutations. -/

theorem emptyReg_atMostOne : AtMostOnePerCb emptyReg := by
  intro t c
  simp [emptyReg, countCb]

theorem countP_pyRemove_le {α : Type} [DecidableEq α] (p : α → Bool) (x : α) :
    ∀ (l : List α), (pyRemove l x).countP p ≤ l.countP p
  | [] => Nat.le_refl _
  | y :: ys => by
    by_cases hy : y = x
    · subst hy
      rw [pyRemove_cons_self, List.countP_cons]
      omega
    · rw [pyRemove_cons_ne ys hy, List.countP_cons, List.countP_cons]
      have := countP_pyRemove_le p x ys
      omega

theorem on_event_preserves_atMostOne {st : Registry}
    (hinv : AtMostOnePerCb st) (t : String) (c : Callback)
    (args : List Nat) (kwargs : List (String × Nat)) :
    AtMostOnePerCb (on_event st t c args kwargs).1 := by
  intro t' c'
  have hfil : removeLoop (st t) c =
      (st t).filter (fun e => ! decide (e.cb = c)) :=
    removeLoop_eq_filter (hinv t c)
  by_cases ht : t' = t
  · subst ht
    have h1 : (on_event st t' c args kwargs).1 t' =
        (st t').filter (fun e => ! decide (e.cb = c)) ++ [⟨c, args, kwargs⟩] := by
      simp [on_event, updateReg_same, hfil]
    rw [h1]
    unfold countCb
    rw [List.countP_append, List.countP_filter, List.countP_singleton]
    by_cases hc : c' = c
    · subst hc
      have hz : (st t').countP
          (fun a => decide (a.cb = c') && ! decide (a.cb = c')) = 0 :=
        List.countP_eq_zero.mpr (fun a _ => by simp)
      rw [hz]
      simp
    · have hif : (if decide ((⟨c, args, kwargs⟩ : Entry).cb = c') = true
          then 1 else 0) = 0 := by
        simp
        intro hcc
        exact hc hcc.symm
      rw [hif]
      have hle : (st t').countP
          (fun a => decide (a.cb = c') && ! decide (a.cb = c)) ≤
          (st t').countP (fun a => decide (a.cb = c')) :=
        List.countP_mono_left (fun a _ h => by
          rw [Bool.and_eq_true] at h
          exact h.1)
      have := hinv t' c'
      unfold countCb at this
      omega
  · have h2 : (on_event st t c args kwargs).1 t' = st t' := by
      simp only [on_event]
      exact updateReg_ne st _ ht
    rw [h2]
    exact hinv t' c'

theorem unsubscribe_preserves_atMostOne {st : Registry}
    (hinv : AtMostOnePerCb st) (t : String) (co : Entry) :
    AtMostOnePerCb (unsubscribe st t co) := by
  intro t' c'
  unfold unsubscribe
  by_cases hmem : co ∈ st t
  · rw [if_pos hmem]
    by_cases ht : t' = t
    · subst ht
      rw [updateReg_same]
      have h1 := countP_pyRemove_le (fun e => decide (e.cb = c')) co (st t')
      have h2 := hinv t' c'
      unfold countCb at h2 ⊢
      omega
    · rw [updateReg_ne st _ ht]
      exact hinv t' c'
  · rw [if_neg hmem]
    exact hinv t' c'

end AriPy
